import Mathlib

/-!
Shallow embedding of the CSES "Solved Filter by Date" userscript
(src/src/cses-filter.user.ts) and proofs of the frozen claims.

Modelling conventions:
* `localStorage` is an association list `Store := List (String × String)`;
  `getItem` returns the first binding, `setItem` overwrites, `removeItem`
  deletes the key.
* A JavaScript `Date` instant is modelled by its local calendar components
  `Dt` (year, month, day, hour, minute, second); the process-local time
  zone is fixed to UTC, so the components of a parsed local-time string
  and of its `toISOString` rendering coincide, `getTime` comparison of two
  dates is the lexicographic comparison of components, and `getTime`
  equality is component equality.  Sub-second precision is dropped (the
  script only ever writes `.000`).
* `new Date(string)` is modelled by `jsNewDate`, which implements the
  ECMA-262 Date Time String Format for the shapes the script produces and
  consumes: `YYYY-MM-DDTHH:MM:SS` with optional `.sss` fraction and
  optional `Z` suffix, rejecting out-of-range calendar components
  (and accepting the special hour `24:00:00`, which rolls to the next
  day).  Any other string is modelled as parsing to an invalid date.
* A network fetch is an oracle `Option String`: `none` covers both a
  transport error and a non-success HTTP status (the script throws on
  `!resp.ok` inside the same `try`, so both reach the same `catch`).
-/

namespace CsesFilter

/-! ## Store (localStorage) -/

abbrev Store := List (String × String)

def getItem (s : Store) (k : String) : Option String :=
  match s with
  | [] => none
  | (k', v) :: rest => if k' = k then some v else getItem rest k

def removeItem (s : Store) (k : String) : Store :=
  match s with
  | [] => []
  | (k', v) :: rest =>
      if k' = k then removeItem rest k
      else (k', v) :: removeItem rest k

def setItem (s : Store) (k v : String) : Store :=
  (k, v) :: removeItem s k

/-- `key.startsWith(prefixString)`, computed on the character lists. -/
def startsWithStr (k p : String) : Bool := List.isPrefixOf p.data k.data

/-! ## Calendar date-times -/

structure Dt where
  y : Nat
  mo : Nat
  d : Nat
  h : Nat
  mi : Nat
  s : Nat
deriving DecidableEq, Repr

/-- Lexicographic strict order on components; with the process time zone
fixed, this is exactly `date.getTime() < other.getTime()`. -/
def dtLt (a b : Dt) : Bool :=
  if a.y ≠ b.y then a.y < b.y
  else if a.mo ≠ b.mo then a.mo < b.mo
  else if a.d ≠ b.d then a.d < b.d
  else if a.h ≠ b.h then a.h < b.h
  else if a.mi ≠ b.mi then a.mi < b.mi
  else a.s < b.s

def isLeap (y : Nat) : Bool :=
  y % 4 = 0 && (y % 100 ≠ 0 || y % 400 = 0)

def daysInMonth (y mo : Nat) : Nat :=
  if mo = 2 then (if isLeap y then 29 else 28)
  else if mo = 4 || mo = 6 || mo = 9 || mo = 11 then 30
  else 31

/-! ## `new Date(string)` on the ECMA Date Time String Format -/

def isDigit (c : Char) : Bool := '0' ≤ c && c ≤ '9'

def digitVal (c : Char) : Nat := c.toNat - '0'.toNat

/-- Read exactly `n` decimal digits, returning their value and the rest. -/
def readDigits : Nat → Nat → List Char → Option (Nat × List Char)
  | 0, acc, cs => some (acc, cs)
  | n + 1, acc, c :: cs =>
      if isDigit c then readDigits n (acc * 10 + digitVal c) cs else none
  | _ + 1, _, [] => none

def expectChar (c : Char) : List Char → Option (List Char)
  | x :: xs => if x = c then some xs else none
  | [] => none

/-- The optional tail after the seconds field: nothing, a `.sss` fraction,
a `Z` designator, or both. -/
def isoTailOk (cs : List Char) : Bool :=
  match cs with
  | [] => true
  | 'Z' :: rest => rest = []
  | '.' :: rest =>
      match readDigits 3 0 rest with
      | some (_, rest2) => rest2 = [] || rest2 = ['Z']
      | none => false
  | _ => false

def rollNextDay (y mo d : Nat) : Dt :=
  if d < daysInMonth y mo then ⟨y, mo, d + 1, 0, 0, 0⟩
  else if mo < 12 then ⟨y, mo + 1, 1, 0, 0, 0⟩
  else ⟨y + 1, 1, 1, 0, 0, 0⟩

/-- Range-check the parsed components; out-of-range fields make the whole
string an invalid date (`NaN`), the special hour `24:00:00` rolls over. -/
def mkValidDt (y mo d h mi s : Nat) : Option Dt :=
  if 1 ≤ mo && mo ≤ 12 && 1 ≤ d && d ≤ daysInMonth y mo && mi ≤ 59 && s ≤ 59 &&
      (h ≤ 23 || (h = 24 && mi = 0 && s = 0)) then
    if h = 24 then some (rollNextDay y mo d) else some ⟨y, mo, d, h, mi, s⟩
  else none

def jsNewDateList (cs : List Char) : Option Dt := do
  let (y, cs) ← readDigits 4 0 cs
  let cs ← expectChar '-' cs
  let (mo, cs) ← readDigits 2 0 cs
  let cs ← expectChar '-' cs
  let (d, cs) ← readDigits 2 0 cs
  let cs ← expectChar 'T' cs
  let (h, cs) ← readDigits 2 0 cs
  let cs ← expectChar ':' cs
  let (mi, cs) ← readDigits 2 0 cs
  let cs ← expectChar ':' cs
  let (s, cs) ← readDigits 2 0 cs
  if isoTailOk cs then mkValidDt y mo d h mi s else none

def jsNewDate (str : String) : Option Dt := jsNewDateList str.data

def pad2 (n : Nat) : String := if n < 10 then "0" ++ toString n else toString n

def pad4 (n : Nat) : String :=
  if n < 10 then "000" ++ toString n
  else if n < 100 then "00" ++ toString n
  else if n < 1000 then "0" ++ toString n
  else toString n

/-- `Date.prototype.toISOString` under the fixed-UTC convention. -/
def toISOString (dt : Dt) : String :=
  pad4 dt.y ++ "-" ++ pad2 dt.mo ++ "-" ++ pad2 dt.d ++ "T" ++
    pad2 dt.h ++ ":" ++ pad2 dt.mi ++ ":" ++ pad2 dt.s ++ ".000Z"

/-! ## The timestamp regex `(\d{4}-\d{2}-\d{2})\s+(\d{2}:\d{2}:\d{2})` -/

def isJsSpace (c : Char) : Bool :=
  c = ' ' || c = '\t' || c = '\n' || c = '\r' || c.toNat = 11 || c.toNat = 12 ||
  c.toNat = 0xa0 || c.toNat = 0x1680 ||
  (0x2000 ≤ c.toNat && c.toNat ≤ 0x200a) ||
  c.toNat = 0x2028 || c.toNat = 0x2029 || c.toNat = 0x202f ||
  c.toNat = 0x205f || c.toNat = 0x3000 || c.toNat = 0xfeff

/-- Match a fixed-length character-class shape, returning the matched
characters and the remainder. -/
def takeShape : List (Char → Bool) → List Char → Option (List Char × List Char)
  | [], cs => some ([], cs)
  | p :: ps, c :: cs =>
      if p c then
        match takeShape ps cs with
        | some (cap, rest) => some (c :: cap, rest)
        | none => none
      else none
  | _ :: _, [] => none

def dateShape : List (Char → Bool) :=
  [isDigit, isDigit, isDigit, isDigit, fun c => c = '-',
   isDigit, isDigit, fun c => c = '-', isDigit, isDigit]

def timeShape : List (Char → Bool) :=
  [isDigit, isDigit, fun c => c = ':', isDigit, isDigit, fun c => c = ':',
   isDigit, isDigit]

/-- Try the whole regex at one position, returning the two capture groups.
Since `\d` and `\s` are disjoint, the greedy `\s+` never backtracks: the
match succeeds exactly when at least one whitespace character follows the
date part and the time shape matches right after the whitespace run. -/
def matchTimestampAt (cs : List Char) : Option (List Char × List Char) := do
  let (dcap, rest) ← takeShape dateShape cs
  match rest with
  | c :: rest2 =>
      if isJsSpace c then
        let (tcap, _) ← takeShape timeShape (rest2.dropWhile isJsSpace)
        some (dcap, tcap)
      else none
  | [] => none

/-- `re.exec`: leftmost match of the timestamp pattern. -/
def firstTimestampMatch : List Char → Option (List Char × List Char)
  | [] => none
  | c :: cs =>
      match matchTimestampAt (c :: cs) with
      | some r => some r
      | none => firstTimestampMatch cs

def extractLatestSubmissionDate (htmlText : String) : Option Dt :=
  match firstTimestampMatch htmlText.data with
  | none => none
  | some (dcap, tcap) => jsNewDateList (dcap ++ 'T' :: tcap)

/-! ## SubmissionResolver (`getSubmissionMeta`) -/

def cacheKeyBase : String := "cses:lastSubmission:"

def cacheVersionKey : String := "cses:lastSubmission:__version"

def cacheVersionVal : String := "v1"

structure SubmissionMeta where
  date : Option Dt
  attempted : Bool
deriving DecidableEq, Repr

/-- The cache-only part of `getSubmissionMeta`: the `if (cached) {...}`
block.  `none` means control falls through to the network fetch: the key
is absent, the entry is the empty string (falsy), or the entry is neither
the sentinel nor a string parsing to a valid date. -/
def cacheHit (store : Store) (problemId : String) : Option SubmissionMeta :=
  match getItem store (cacheKeyBase ++ problemId) with
  | none => none
  | some cached =>
      if cached = "" then none
      else if cached = "NONE" then some ⟨none, false⟩
      else
        match jsNewDate cached with
        | some d => some ⟨some d, true⟩
        | none => none

structure ResolveResult where
  meta : SubmissionMeta
  store : Store
  networkCalls : Nat
deriving DecidableEq, Repr

/-- `getSubmissionMeta`, with the fetch of
`https://cses.fi/problemset/submit/{id}/` abstracted as an oracle:
`none` models a rejected fetch or a non-ok status (both throw into the
same `catch`), `some text` models a successful response body. -/
def getSubmissionMeta (store : Store) (problemId : String)
    (fetchResult : Option String) : ResolveResult :=
  match cacheHit store problemId with
  | some m => ⟨m, store, 0⟩
  | none =>
      match fetchResult with
      | none => ⟨⟨none, false⟩, store, 1⟩
      | some text =>
          match extractLatestSubmissionDate text with
          | some date =>
              ⟨⟨some date, true⟩,
                setItem store (cacheKeyBase ++ problemId) (toISOString date), 1⟩
          | none =>
              ⟨⟨none, false⟩, setItem store (cacheKeyBase ++ problemId) "NONE", 1⟩

/-! ## Classifier (`classifyTask`) -/

/-- The observable state of a task's `span.task-score.icon` element:
its `full` and `zero` classes and the `data-original-solved` dataset flag. -/
structure Icon where
  full : Bool
  zero : Bool
  originalSolved : Bool
deriving DecidableEq, Repr

/-- One `li.task` row: the optional score icon and the optional
`href` of its problem link (`none` when no link is found). -/
structure TaskLi where
  icon : Option Icon
  href : Option String
deriving DecidableEq, Repr

/-- The regex `/(\d+)/`: first maximal run of decimal digits. -/
def firstDigitRun : List Char → Option (List Char)
  | [] => none
  | c :: rest =>
      if isDigit c then some (c :: rest.takeWhile isDigit)
      else firstDigitRun rest

/-- `link ? (link.getAttribute('href') || '').match(/(\d+)/)?.[1] : null`. -/
def taskProblemId (li : TaskLi) : Option String :=
  match li.href with
  | none => none
  | some href => (firstDigitRun href.data).map fun cs => String.mk cs

structure ClassifyResult where
  solved : Bool
  attempted : Bool
  unattended : Bool
  pending : Bool
  problemId : Option String
deriving DecidableEq, Repr

/-- `classifyTask`, lines 340-356 of the script. -/
def classifyTask (store : Store) (li : TaskLi) : ClassifyResult :=
  let solved := match li.icon with | some ic => ic.full | none => false
  let wrongImmediate := match li.icon with | some ic => ic.zero | none => false
  match taskProblemId li with
  | none => ⟨false, false, true, false, none⟩
  | some pid =>
      if solved then ⟨true, true, false, false, some pid⟩
      else if wrongImmediate then ⟨false, true, false, false, some pid⟩
      else
        let viaCache : Option ClassifyResult :=
          match getItem store (cacheKeyBase ++ pid) with
          | none => none
          | some cacheVal =>
              if cacheVal = "" then none
              else if cacheVal = "NONE" then
                some ⟨false, false, true, false, some pid⟩
              else
                match jsNewDate cacheVal with
                | some _ => some ⟨false, true, false, false, some pid⟩
                | none => none
        viaCache.getD ⟨false, false, true, true, some pid⟩

inductive ItemStatus
  | Solved
  | WrongAttempted
  | Unattended
  | Pending
deriving DecidableEq, Repr

/-- The four-bucket status encoded by a `classifyTask` record: the
`pending` flag marks the rows for which `buildSectionStats` schedules a
remote resolution, and among the settled rows `solved`, then `attempted`,
pick the bucket (exactly as the counting passes consume the record). -/
def statusOf (c : ClassifyResult) : ItemStatus :=
  if c.pending then .Pending
  else if c.solved then .Solved
  else if c.attempted then .WrongAttempted
  else .Unattended

/-- Modelled from the spec's classifier precedence list (section 4.4):
no resolvable id, then the marker's solved-now flag, then its immediate
wrong-answer flag, then the cache sentinel, then a cached parseable
timestamp, and finally `Pending` for an absent or unusable entry. -/
def specClassify (hasId solvedNow wrongImmediate : Bool)
    (cacheEntry : Option String) : ItemStatus :=
  if !hasId then .Unattended
  else if solvedNow then .Solved
  else if wrongImmediate then .WrongAttempted
  else
    match cacheEntry with
    | some e =>
        if e = "NONE" then .Unattended
        else
          match jsNewDate e with
          | some _ => .WrongAttempted
          | none => .Pending
    | none => .Pending

/-! ## Aggregator: per-section overall and filtered counts -/

structure SectionOverall where
  total : Nat
  correct : Nat
  wrong : Nat
  unattended : Nat
deriving DecidableEq, Repr

/-- One iteration of the counting loop of `updateSectionHeading`:
`if (c.solved) correct++; else if (c.attempted) wrong++; else unattended++`. -/
def overallStep (store : Store) (acc : SectionOverall) (li : TaskLi) :
    SectionOverall :=
  let c := classifyTask store li
  if c.solved then { acc with correct := acc.correct + 1 }
  else if c.attempted then { acc with wrong := acc.wrong + 1 }
  else { acc with unattended := acc.unattended + 1 }

/-- The counting pass of `updateSectionHeading` (lines 358-379). -/
def overallCounts (store : Store) (tasks : List TaskLi) : SectionOverall :=
  tasks.foldl (overallStep store) ⟨tasks.length, 0, 0, 0⟩

structure SectionFiltered where
  solved : Nat
  wrong : Nat
  unattended : Nat
deriving DecidableEq, Repr

/-- One iteration of the filtered-count loop of
`updateFilteredSectionStats` (lines 411-427): rows without an icon are
skipped (`if (!icon) return`). -/
def filteredStep (store : Store) (acc : SectionFiltered) (li : TaskLi) :
    SectionFiltered :=
  match li.icon with
  | none => acc
  | some icon =>
      let originallySolved := icon.originalSolved || icon.full
      let isSolvedNow := icon.full
      let wrongImmediate := icon.zero
      let attempted :=
        if wrongImmediate then true
        else
          match taskProblemId li with
          | some pid =>
              match getItem store (cacheKeyBase ++ pid) with
              | some cacheVal => cacheVal ≠ "" && cacheVal ≠ "NONE"
              | none => false
          | none => false
      if isSolvedNow && originallySolved then
        { acc with solved := acc.solved + 1 }
      else if attempted && !originallySolved then
        { acc with wrong := acc.wrong + 1 }
      else { acc with unattended := acc.unattended + 1 }

def filteredCounts (store : Store) (tasks : List TaskLi) : SectionFiltered :=
  tasks.foldl (filteredStep store) ⟨0, 0, 0⟩

/-! ## Aggregator: global totals over included sections -/

/-- A section as the aggregation loop sees it: its task rows, its
`dataset.excluded` flag, and the cached per-section counts stored in
`dataset.sectionOverall` / `dataset.sectionFiltered` (absent when the
badge pass has not yet run). -/
structure SectionModel where
  tasks : List TaskLi
  excluded : Bool
  cachedOverall : Option SectionOverall
  cachedFiltered : Option SectionFiltered
deriving DecidableEq, Repr

def sectionOverallResolved (store : Store) (sec : SectionModel) :
    SectionOverall :=
  sec.cachedOverall.getD (overallCounts store sec.tasks)

def sectionFilteredResolved (store : Store) (sec : SectionModel) :
    SectionFiltered :=
  sec.cachedFiltered.getD (filteredCounts store sec.tasks)

structure AggCounts where
  total : Nat
  solved : Nat
  wrong : Nat
  unatt : Nat
  fSolved : Nat
  fWrong : Nat
  fUnatt : Nat
deriving DecidableEq, Repr

def aggZero : AggCounts := ⟨0, 0, 0, 0, 0, 0, 0⟩

def addAgg (a b : AggCounts) : AggCounts :=
  ⟨a.total + b.total, a.solved + b.solved, a.wrong + b.wrong,
   a.unatt + b.unatt, a.fSolved + b.fSolved, a.fWrong + b.fWrong,
   a.fUnatt + b.fUnatt⟩

/-- Componentwise sum of a list of count records. -/
def sumAgg (l : List AggCounts) : AggCounts := l.foldr addAgg aggZero

/-- One section's contribution to the global totals: its
cached-or-recomputed overall and filtered counts. -/
def contribAgg (store : Store) (sec : SectionModel) : AggCounts :=
  let o := sectionOverallResolved store sec
  let f := sectionFilteredResolved store sec
  ⟨o.total, o.correct, o.wrong, o.unattended, f.solved, f.wrong, f.unattended⟩

/-- One iteration of the global accumulation loop
(`updateFilteredSectionStats`, lines 442-489): excluded sections are
skipped, included ones add their cached counts, recomputed from scratch
when the cache is absent. -/
def aggStep (store : Store) (acc : AggCounts) (sec : SectionModel) :
    AggCounts :=
  if sec.excluded then acc else addAgg acc (contribAgg store sec)

def aggregateCounts (store : Store) (secs : List SectionModel) : AggCounts :=
  secs.foldl (aggStep store) aggZero

/-- Flipping one section's `dataset.excluded` flag (the toggle button's
click handler, lines 549-563). -/
def setSectionExcluded : List SectionModel → Nat → Bool → List SectionModel
  | [], _, _ => []
  | sec :: rest, 0, b => { sec with excluded := b } :: rest
  | sec :: rest, n + 1, b => sec :: setSectionExcluded rest n b

/-! ## Cache versioning (startup check, lines 53-57) -/

def purgeCachePrefixed (store : Store) : Store :=
  store.filter fun kv => !(startsWithStr kv.1 cacheKeyBase)

/-- The startup version check: on mismatch remove every key bearing the
cache key base (the `Object.keys` snapshot loop), then write the version
key. -/
def ensureCacheVersion (store : Store) : Store :=
  if getItem store cacheVersionKey ≠ some cacheVersionVal then
    setItem (purgeCachePrefixed store) cacheVersionKey cacheVersionVal
  else store

/-! ## Threshold decisions -/

/-- The decision body of `applyFilter`'s queued task (lines 602-616):
given the resolved submission date, the selected threshold and the
current day's midnight, the resulting presence of the icon's `full`
class.  When no date was resolved the icon is left untouched. -/
def applyFilterIconFull (fullBefore : Bool) (date : Option Dt)
    (threshold todayMidnight : Dt) : Bool :=
  match date with
  | none => fullBefore
  | some d =>
      if threshold = todayMidnight then true
      else if dtLt d threshold then false
      else true

/-- The icon update of `refreshProblem` (lines 188-197): hide when a date
was resolved, a threshold is set and the date is strictly before it;
otherwise show whenever a date was resolved. -/
def refreshIconFull (fullBefore : Bool) (date : Option Dt)
    (threshold : Option Dt) : Bool :=
  match date, threshold with
  | some d, some t => if dtLt d t then false else true
  | some _, none => true
  | none, _ => fullBefore

/-! ## TaskQueue -/

/-- Scheduler state: concurrency limit `c`, in-flight counter `running`,
FIFO backlog `q`, plus two history logs used to state the FIFO property:
`started` records tasks in the order they were launched, `pushed` in the
order they were pushed. -/
structure QState where
  c : Nat
  running : Nat
  q : List Nat
  started : List Nat
  pushed : List Nat
deriving DecidableEq, Repr

/-- The body of the `run()` loop, recursing on the backlog: while a slot
is free (`running < c`) and the backlog is nonempty, shift the head task
and launch it.  Returns the new in-flight count, the remaining backlog
and the start log. -/
def runQueueAux (c running : Nat) (q started : List Nat) :
    Nat × List Nat × List Nat :=
  match q with
  | [] => (running, [], started)
  | t :: rest =>
      if running < c then runQueueAux c (running + 1) rest (started ++ [t])
      else (running, t :: rest, started)

/-- The `run()` method. -/
def runQueue (s : QState) : QState :=
  let r := runQueueAux s.c s.running s.q s.started
  { s with running := r.1, q := r.2.1, started := r.2.2 }

inductive QEvent
  | push (id : Nat)
  | settle (ok : Bool)
deriving DecidableEq, Repr

/-- `push` appends to the backlog and runs the loop; a task settling
(fulfilled or rejected — `.catch(()=>{}).finally(...)` treats both alike)
decrements the in-flight counter and runs the loop. -/
def qStep (s : QState) (e : QEvent) : QState :=
  match e with
  | .push id =>
      runQueue { s with q := s.q ++ [id], pushed := s.pushed ++ [id] }
  | .settle _ => runQueue { s with running := s.running - 1 }

def initQ (c : Nat) : QState := ⟨c, 0, [], [], []⟩

def execTrace (c : Nat) (evs : List QEvent) : QState :=
  evs.foldl qStep (initQ c)

/-- The scheduler invariant: fixed limit, in-flight count within the
limit, and the start log followed by the backlog is exactly the push
log (so tasks are started in FIFO push order). -/
def QInv (c : Nat) (s : QState) : Prop :=
  s.c = c ∧ s.running ≤ c ∧ s.started ++ s.q = s.pushed

/-! # Supporting lemmas -/

theorem getItem_setItem_self (s : Store) (k v : String) :
    getItem (setItem s k v) k = some v := by
  simp [setItem, getItem]

theorem getItem_removeItem_self (s : Store) (k : String) :
    getItem (removeItem s k) k = none := by
  induction s with
  | nil => rfl
  | cons p rest ih =>
      obtain ⟨k', v⟩ := p
      by_cases h : k' = k
      · simpa [removeItem, h] using ih
      · simp [removeItem, getItem, h, ih]

theorem getItem_removeItem_ne (s : Store) (k k' : String) (h : k ≠ k') :
    getItem (removeItem s k) k' = getItem s k' := by
  induction s with
  | nil => rfl
  | cons p rest ih =>
      obtain ⟨k0, v0⟩ := p
      by_cases hk : k0 = k
      · subst hk
        simp [removeItem, getItem, h, ih]
      · by_cases hk' : k0 = k'
        · subst hk'
          simp [removeItem, getItem, hk, Ne.symm h]
        · simp [removeItem, getItem, hk, hk', ih]

theorem getItem_setItem_ne (s : Store) (k v k' : String) (h : k ≠ k') :
    getItem (setItem s k v) k' = getItem s k' := by
  simp only [setItem, getItem, if_neg h]
  exact getItem_removeItem_ne s k k' h

theorem getItem_purge (store : Store) (k : String) :
    getItem (purgeCachePrefixed store) k =
      if startsWithStr k cacheKeyBase then none else getItem store k := by
  induction store with
  | nil => simp [purgeCachePrefixed, getItem]
  | cons p rest ih =>
      obtain ⟨k0, v0⟩ := p
      by_cases hk : k0 = k
      · subst hk
        by_cases hq : startsWithStr k0 cacheKeyBase <;>
          simp [purgeCachePrefixed, List.filter_cons, getItem, hq, ih] at ih ⊢ <;>
          simp [ih]
      · by_cases hq : startsWithStr k0 cacheKeyBase <;>
          simp [purgeCachePrefixed, List.filter_cons, getItem, hq, hk] at ih ⊢ <;>
          simp [ih]

theorem jsNewDate_empty : jsNewDate "" = none := rfl

theorem jsNewDate_sentinel : jsNewDate "NONE" = none := rfl

/-! # Claim theorems -/

/-- C1: for every marker configuration and cache content, `classifyTask`
returns exactly the status dictated by the spec's precedence order: no
resolvable problem id gives `Unattended`; otherwise a solved-now marker
gives `Solved`; otherwise an immediate wrong-answer marker gives
`WrongAttempted`; otherwise the cache sentinel `NONE` gives `Unattended`;
otherwise a cache entry parsing to a valid timestamp gives
`WrongAttempted`; otherwise (no usable cache entry) `Pending`. -/
theorem classifier_precedence (store : Store) (li : TaskLi) :
    statusOf (classifyTask store li) =
      specClassify (taskProblemId li).isSome
        ((li.icon.map Icon.full).getD false)
        ((li.icon.map Icon.zero).getD false)
        (match taskProblemId li with
         | some pid => getItem store (cacheKeyBase ++ pid)
         | none => none) := by
  rcases hpid : taskProblemId li with _ | pid
  · rcases hic : li.icon with _ | ic <;>
      simp [classifyTask, specClassify, statusOf, hpid, hic]
  · rcases hic : li.icon with _ | ⟨f, z, o⟩ <;>
      [skip; cases f <;> cases z] <;>
      rcases hget : getItem store (cacheKeyBase ++ pid) with _ | c <;>
      simp only [classifyTask, specClassify, statusOf, hpid, hic, hget] <;>
      first
      | rfl
      | (by_cases hc0 : c = "" <;> by_cases hn : c = "NONE" <;>
          rcases hd : jsNewDate c with _ | d <;>
          simp_all [statusOf, jsNewDate_empty])

theorem overallStep_sum (store : Store) (acc : SectionOverall) (li : TaskLi) :
    (overallStep store acc li).correct + (overallStep store acc li).wrong +
        (overallStep store acc li).unattended =
      acc.correct + acc.wrong + acc.unattended + 1 ∧
    (overallStep store acc li).total = acc.total := by
  simp only [overallStep]
  split <;> [skip; split] <;> simp <;> omega

theorem overall_fold_inv (store : Store) (tasks : List TaskLi) :
    ∀ acc : SectionOverall,
      (tasks.foldl (overallStep store) acc).total = acc.total ∧
      (tasks.foldl (overallStep store) acc).correct +
          (tasks.foldl (overallStep store) acc).wrong +
          (tasks.foldl (overallStep store) acc).unattended =
        acc.correct + acc.wrong + acc.unattended + tasks.length := by
  induction tasks with
  | nil => simp
  | cons li rest ih =>
      intro acc
      simp only [List.foldl_cons, List.length_cons]
      obtain ⟨h1, h2⟩ := ih (overallStep store acc li)
      obtain ⟨h3, h4⟩ := overallStep_sum store acc li
      exact ⟨h1.trans h4, by omega⟩

theorem filteredStep_sum (store : Store) (acc : SectionFiltered)
    (li : TaskLi) :
    (filteredStep store acc li).solved + (filteredStep store acc li).wrong +
        (filteredStep store acc li).unattended =
      acc.solved + acc.wrong + acc.unattended +
        (if li.icon.isSome then 1 else 0) := by
  rcases li with ⟨_ | ic, href⟩
  · simp [filteredStep]
  · simp only [filteredStep, Option.isSome_some, if_true]
    repeat' split
    all_goals (simp; try omega)

theorem filtered_fold_inv (store : Store) (tasks : List TaskLi) :
    ∀ acc : SectionFiltered,
      (tasks.foldl (filteredStep store) acc).solved +
          (tasks.foldl (filteredStep store) acc).wrong +
          (tasks.foldl (filteredStep store) acc).unattended =
        acc.solved + acc.wrong + acc.unattended +
          (tasks.filter fun li => li.icon.isSome).length := by
  induction tasks with
  | nil => simp
  | cons li rest ih =>
      intro acc
      simp only [List.foldl_cons]
      have h2 := ih (filteredStep store acc li)
      have h4 := filteredStep_sum store acc li
      rcases hic : li.icon with _ | ic <;>
        simp [List.filter_cons, hic] at h4 ⊢ <;> omega

/-- C3 (amended): the overall counts always partition the whole group,
`correct + wrong + unattended = total = #items`; the filtered counts
partition only the items that carry a score icon, so the filtered sum is
the number of icon-bearing items (equal to `total` exactly when every
item has an icon) rather than `total` itself. -/
theorem section_partition (store : Store) (tasks : List TaskLi) :
    (overallCounts store tasks).total = tasks.length ∧
    (overallCounts store tasks).correct + (overallCounts store tasks).wrong +
        (overallCounts store tasks).unattended = tasks.length ∧
    (filteredCounts store tasks).solved + (filteredCounts store tasks).wrong +
        (filteredCounts store tasks).unattended =
      (tasks.filter fun li => li.icon.isSome).length := by
  obtain ⟨h1, h2⟩ := overall_fold_inv store tasks ⟨tasks.length, 0, 0, 0⟩
  have h3 := filtered_fold_inv store tasks ⟨0, 0, 0⟩
  exact ⟨h1, by simpa [overallCounts] using h2,
    by simpa [filteredCounts] using h3⟩

/-- C3 counterexample: a group with one task row that has a problem link
but no score icon.  The overall count has `total = 1`, yet the filtered
pass (`if (!icon) return`) drops the row, so its three buckets sum to 0,
not to `total`. -/
theorem filtered_partition_counterexample :
    (overallCounts [] [⟨none, some "/problemset/task/1068"⟩]).total = 1 ∧
    (filteredCounts [] [⟨none, some "/problemset/task/1068"⟩]).solved +
        (filteredCounts [] [⟨none, some "/problemset/task/1068"⟩]).wrong +
        (filteredCounts [] [⟨none, some "/problemset/task/1068"⟩]).unattended
      = 0 := by
  decide

/-- C7: on version mismatch the startup check leaves exactly this state:
the version key holds the expected version, every other key bearing the
cache key base is gone, and all unrelated keys are untouched; on version
match the store is unchanged. -/
theorem cache_version_check (store : Store) :
    (getItem store cacheVersionKey ≠ some cacheVersionVal →
      ∀ k, getItem (ensureCacheVersion store) k =
        if k = cacheVersionKey then some cacheVersionVal
        else if startsWithStr k cacheKeyBase then none
        else getItem store k) ∧
    (getItem store cacheVersionKey = some cacheVersionVal →
      ensureCacheVersion store = store) := by
  constructor
  · intro h k
    simp only [ensureCacheVersion, if_pos h]
    by_cases hk : k = cacheVersionKey
    · subst hk
      simp [getItem_setItem_self]
    · rw [if_neg hk, getItem_setItem_ne _ _ _ _ (fun hh => hk hh.symm),
        getItem_purge]
  · intro h
    simp [ensureCacheVersion, h]

theorem cache_version_check_witness :
    getItem (ensureCacheVersion [(cacheKeyBase ++ "1", "x"), ("other", "y")])
        (cacheKeyBase ++ "1") = none ∧
    getItem (ensureCacheVersion [(cacheKeyBase ++ "1", "x"), ("other", "y")])
        cacheVersionKey = some cacheVersionVal ∧
    getItem (ensureCacheVersion [(cacheKeyBase ++ "1", "x"), ("other", "y")])
        "other" = some "y" ∧
    ensureCacheVersion [(cacheVersionKey, cacheVersionVal)] =
      [(cacheVersionKey, cacheVersionVal)] := by
  refine ⟨?_, ?_, ?_, ?_⟩
  · rw [(cache_version_check _).1 (by decide) (cacheKeyBase ++ "1")]
    decide
  · rw [(cache_version_check _).1 (by decide) cacheVersionKey]
    decide
  · rw [(cache_version_check _).1 (by decide) "other"]
    decide
  · exact (cache_version_check _).2 (by decide)

/-- C4: a usable cache entry (sentinel `NONE`, or a value parsing to a
valid timestamp) short-circuits resolution: zero network calls, the store
is unchanged, the returned meta is determined by the entry alone, and
repeating the call returns the identical value. -/
theorem resolver_reads_cache_only (store : Store) (pid : String)
    (f1 f2 : Option String) :
    (getItem store (cacheKeyBase ++ pid) = some "NONE" →
      getSubmissionMeta store pid f1 = ⟨⟨none, false⟩, store, 0⟩ ∧
      getSubmissionMeta (getSubmissionMeta store pid f1).store pid f2 =
        getSubmissionMeta store pid f1) ∧
    (∀ c d, getItem store (cacheKeyBase ++ pid) = some c →
      jsNewDate c = some d →
      getSubmissionMeta store pid f1 = ⟨⟨some d, true⟩, store, 0⟩ ∧
      getSubmissionMeta (getSubmissionMeta store pid f1).store pid f2 =
        getSubmissionMeta store pid f1) := by
  constructor
  · intro h
    have hhit : cacheHit store pid = some ⟨none, false⟩ := by
      simp [cacheHit, h]
    constructor <;> simp [getSubmissionMeta, hhit]
  · intro c d hc hd
    have hne : c ≠ "" := by
      intro hh
      rw [hh, jsNewDate_empty] at hd
      cases hd
    have hnn : c ≠ "NONE" := by
      intro hh
      rw [hh, jsNewDate_sentinel] at hd
      cases hd
    have hhit : cacheHit store pid = some ⟨some d, true⟩ := by
      simp [cacheHit, hc, hne, hnn, hd]
    constructor <;> simp [getSubmissionMeta, hhit]

theorem resolver_reads_cache_only_witness :
    getSubmissionMeta [(cacheKeyBase ++ "7", "NONE")] "7" (some "body") =
      ⟨⟨none, false⟩, [(cacheKeyBase ++ "7", "NONE")], 0⟩ ∧
    getSubmissionMeta [(cacheKeyBase ++ "9", "2024-05-17T19:23:01.000Z")] "9"
        none =
      ⟨⟨some ⟨2024, 5, 17, 19, 23, 1⟩, true⟩,
        [(cacheKeyBase ++ "9", "2024-05-17T19:23:01.000Z")], 0⟩ := by
  constructor
  · exact ((resolver_reads_cache_only _ "7" (some "body") none).1
      (by decide)).1
  · exact ((resolver_reads_cache_only _ "9" none none).2
      "2024-05-17T19:23:01.000Z" ⟨2024, 5, 17, 19, 23, 1⟩ (by decide)
      (by decide)).1

/-- C5: with no usable cache entry, a failed lookup returns
`{None, false}`, writes nothing (the store is returned unchanged), and a
later resolution performs the network call again. -/
theorem resolver_failure_no_cache_write (store : Store) (pid : String)
    (h : cacheHit store pid = none) :
    getSubmissionMeta store pid none = ⟨⟨none, false⟩, store, 1⟩ ∧
    ∀ f2, (getSubmissionMeta (getSubmissionMeta store pid none).store pid
      f2).networkCalls = 1 := by
  have h1 : getSubmissionMeta store pid none = ⟨⟨none, false⟩, store, 1⟩ := by
    simp [getSubmissionMeta, h]
  refine ⟨h1, fun f2 => ?_⟩
  rw [h1]
  rcases f2 with _ | text
  · simp [getSubmissionMeta, h]
  · rcases hx : extractLatestSubmissionDate text with _ | d <;>
      simp [getSubmissionMeta, h, hx]

theorem resolver_failure_no_cache_write_witness :
    getSubmissionMeta [] "1068" none = ⟨⟨none, false⟩, [], 1⟩ ∧
    (getSubmissionMeta (getSubmissionMeta [] "1068" none).store "1068"
      none).networkCalls = 1 := by
  obtain ⟨h1, h2⟩ := resolver_failure_no_cache_write [] "1068" (by decide)
  exact ⟨h1, h2 none⟩

/-- C6: on a successful lookup with no usable cache entry, a found
timestamp is written in ISO form and `{Some t, true}` returned; with no
timestamp the sentinel `NONE` is written and `{None, false}` returned,
after which every resolution answers from the cache with zero network
calls until a forced refresh removes the entry, which makes the next
resolution fetch again. -/
theorem resolver_success_writes (store : Store) (pid : String)
    (text : String) (h : cacheHit store pid = none) :
    (∀ d, extractLatestSubmissionDate text = some d →
      getSubmissionMeta store pid (some text) =
        ⟨⟨some d, true⟩, setItem store (cacheKeyBase ++ pid) (toISOString d),
          1⟩) ∧
    (extractLatestSubmissionDate text = none →
      getSubmissionMeta store pid (some text) =
        ⟨⟨none, false⟩, setItem store (cacheKeyBase ++ pid) "NONE", 1⟩ ∧
      (∀ f2, getSubmissionMeta (setItem store (cacheKeyBase ++ pid) "NONE")
          pid f2 =
        ⟨⟨none, false⟩, setItem store (cacheKeyBase ++ pid) "NONE", 0⟩) ∧
      (∀ f3, (getSubmissionMeta
          (removeItem (setItem store (cacheKeyBase ++ pid) "NONE")
            (cacheKeyBase ++ pid))
          pid f3).networkCalls = 1)) := by
  refine ⟨fun d hd => ?_, fun hn => ⟨?_, fun f2 => ?_, fun f3 => ?_⟩⟩
  · simp [getSubmissionMeta, h, hd]
  · simp [getSubmissionMeta, h, hn]
  · have hhit : cacheHit (setItem store (cacheKeyBase ++ pid) "NONE") pid =
        some ⟨none, false⟩ := by
      simp [cacheHit, getItem_setItem_self]
    simp [getSubmissionMeta, hhit]
  · have hhit : cacheHit
        (removeItem (setItem store (cacheKeyBase ++ pid) "NONE")
          (cacheKeyBase ++ pid)) pid = none := by
      simp [cacheHit, getItem_removeItem_self]
    rcases f3 with _ | t3
    · simp [getSubmissionMeta, hhit]
    · rcases hx : extractLatestSubmissionDate t3 with _ | d <;>
        simp [getSubmissionMeta, hhit, hx]

theorem resolver_success_writes_witness :
    getSubmissionMeta [] "1068" (some "x 2024-05-17 19:23:01 y") =
      ⟨⟨some ⟨2024, 5, 17, 19, 23, 1⟩, true⟩,
        [(cacheKeyBase ++ "1068", "2024-05-17T19:23:01.000Z")], 1⟩ ∧
    getSubmissionMeta [] "1068" (some "no timestamps here") =
      ⟨⟨none, false⟩, [(cacheKeyBase ++ "1068", "NONE")], 1⟩ ∧
    getSubmissionMeta [(cacheKeyBase ++ "1068", "NONE")] "1068"
        (some "x 2024-05-17 19:23:01 y") =
      ⟨⟨none, false⟩, [(cacheKeyBase ++ "1068", "NONE")], 0⟩ := by
  refine ⟨?_, ?_, ?_⟩
  · exact ((resolver_success_writes [] "1068" "x 2024-05-17 19:23:01 y"
      (by decide)).1 ⟨2024, 5, 17, 19, 23, 1⟩ (by decide)).trans (by decide)
  · exact (((resolver_success_writes [] "1068" "no timestamps here"
      (by decide)).2 (by decide)).1).trans (by decide)
  · exact ((((resolver_success_writes [] "1068" "no timestamps here"
      (by decide)).2 (by decide)).2.1
      (some "x 2024-05-17 19:23:01 y")).trans (by decide))

/-- C10: when the first `YYYY-MM-DD HH:MM:SS`-shaped substring of a
fetched body does not parse to a valid calendar date-time, extraction
returns no timestamp at all (later occurrences are never consulted), so
resolution writes the sentinel `NONE` and returns `{None, false}`. -/
theorem extract_invalid_first_match (text : String) (dcap tcap : List Char)
    (h1 : firstTimestampMatch text.data = some (dcap, tcap))
    (h2 : jsNewDateList (dcap ++ 'T' :: tcap) = none)
    (store : Store) (pid : String) (h3 : cacheHit store pid = none) :
    extractLatestSubmissionDate text = none ∧
    getSubmissionMeta store pid (some text) =
      ⟨⟨none, false⟩, setItem store (cacheKeyBase ++ pid) "NONE", 1⟩ := by
  have hx : extractLatestSubmissionDate text = none := by
    simp [extractLatestSubmissionDate, h1, h2]
  exact ⟨hx, by simp [getSubmissionMeta, h3, hx]⟩

theorem extract_invalid_first_match_witness :
    extractLatestSubmissionDate
      "a 2024-13-01 10:00:00 b 2024-05-17 19:23:01" = none ∧
    getSubmissionMeta [] "1068"
        (some "a 2024-13-01 10:00:00 b 2024-05-17 19:23:01") =
      ⟨⟨none, false⟩, [(cacheKeyBase ++ "1068", "NONE")], 1⟩ := by
  have h := extract_invalid_first_match
    "a 2024-13-01 10:00:00 b 2024-05-17 19:23:01"
    ("2024-13-01".data) ("10:00:00".data) (by decide) (by decide)
    [] "1068" (by decide)
  exact ⟨h.1, h.2.trans (by decide)⟩

/-- C2 counterexample: on the per-item force-refresh path
(`refreshProblem`) there is no today carve-out.  Taking the active
threshold to be the current-day midnight 2025-10-11T00:00 and a resolved
submission timestamp of the previous day, the refresh path removes the
icon's `full` class (the solved mark), contradicting the claim that the
carve-out holds on every path that applies the threshold filter. -/
theorem refresh_no_carveout_counterexample :
    refreshIconFull true (some ⟨2025, 10, 10, 0, 0, 0⟩)
        (some ⟨2025, 10, 11, 0, 0, 0⟩) = false ∧
    dtLt ⟨2025, 10, 10, 0, 0, 0⟩ ⟨2025, 10, 11, 0, 0, 0⟩ = true := by
  decide

/-- C2 (amended): on the bulk `applyFilter` path the carve-out holds —
whenever the threshold equals the current-day midnight, a solved mark is
never removed, regardless of the resolved timestamp; but on the per-item
force-refresh path (`refreshProblem`) there is no carve-out: the mark is
kept exactly when the resolved timestamp is not strictly before the
threshold, even when the threshold is today's midnight. -/
theorem threshold_today_carveout_amended :
    (∀ (t : Dt) (date : Option Dt), applyFilterIconFull true date t t = true) ∧
    (∀ (d t : Dt), refreshIconFull true (some d) (some t) = !(dtLt d t)) := by
  constructor
  · intro t date
    rcases date with _ | d <;> simp [applyFilterIconFull]
  · intro d t
    simp only [refreshIconFull]
    split <;> simp_all

theorem addAgg_zero_left (a : AggCounts) : addAgg aggZero a = a := by
  cases a; simp [addAgg, aggZero]

theorem addAgg_zero_right (a : AggCounts) : addAgg a aggZero = a := by
  cases a; simp [addAgg, aggZero]

theorem addAgg_comm (a b : AggCounts) : addAgg a b = addAgg b a := by
  cases a; cases b; simp [addAgg]; omega

theorem addAgg_assoc (a b c : AggCounts) :
    addAgg (addAgg a b) c = addAgg a (addAgg b c) := by
  cases a; cases b; cases c; simp [addAgg]; omega

theorem aggStep_as_add (store : Store) (acc : AggCounts) (sec : SectionModel) :
    aggStep store acc sec = addAgg acc (aggStep store aggZero sec) := by
  by_cases h : sec.excluded <;>
    simp [aggStep, h, addAgg_zero_right, addAgg_zero_left]

theorem foldl_aggStep_acc (store : Store) (secs : List SectionModel) :
    ∀ acc, secs.foldl (aggStep store) acc =
      addAgg acc (aggregateCounts store secs) := by
  induction secs with
  | nil => intro acc; simp [aggregateCounts, addAgg_zero_right]
  | cons x xs ih =>
      intro acc
      simp only [aggregateCounts, List.foldl_cons]
      rw [ih (aggStep store acc x), ih (aggStep store aggZero x),
        aggStep_as_add store acc x, addAgg_assoc]

theorem aggregate_filter_map (store : Store) (secs : List SectionModel) :
    aggregateCounts store secs =
      sumAgg ((secs.filter fun s => !s.excluded).map (contribAgg store)) := by
  induction secs with
  | nil => rfl
  | cons x xs ih =>
      simp only [aggregateCounts, List.foldl_cons] at ih ⊢
      rw [foldl_aggStep_acc]
      by_cases h : x.excluded
      · simp [aggStep, h, addAgg_zero_left, List.filter_cons, ih,
          aggregateCounts]
      · simp [aggStep, h, addAgg_zero_left, List.filter_cons, sumAgg,
          List.foldr_cons, ih, aggregateCounts]

theorem toggle_restores (secs : List SectionModel) :
    ∀ i (h : i < secs.length), (secs.get ⟨i, h⟩).excluded = false →
      setSectionExcluded (setSectionExcluded secs i true) i false = secs := by
  induction secs with
  | nil => intro i h; simp at h
  | cons x xs ih =>
      intro i h hx
      cases i with
      | zero =>
          cases x
          simp_all [setSectionExcluded]
      | succ n =>
          simp only [setSectionExcluded]
          simp only [List.get] at hx
          rw [ih n (by simpa using h) hx]

theorem exclude_removes_contribution (store : Store)
    (secs : List SectionModel) :
    ∀ i (h : i < secs.length), (secs.get ⟨i, h⟩).excluded = false →
      addAgg (aggregateCounts store (setSectionExcluded secs i true))
          (contribAgg store (secs.get ⟨i, h⟩)) =
        aggregateCounts store secs := by
  induction secs with
  | nil => intro i h; simp at h
  | cons x xs ih =>
      intro i h hx
      cases i with
      | zero =>
          simp only [List.get] at hx
          simp only [setSectionExcluded, aggregateCounts, List.foldl_cons,
            List.get]
          rw [foldl_aggStep_acc, foldl_aggStep_acc]
          simp [aggStep, hx, addAgg_zero_left, addAgg_comm]
      | succ n =>
          simp only [List.get] at hx
          simp only [setSectionExcluded, aggregateCounts, List.foldl_cons,
            List.get]
          rw [foldl_aggStep_acc, foldl_aggStep_acc, addAgg_assoc,
            ih n (by simpa using h) hx]

/-- C8: the global totals are the componentwise sum of the contributions
of exactly the non-excluded sections; excluding a previously included
section removes exactly its contribution (adding it back yields the old
totals), re-including it restores the totals exactly, and toggling the
flag leaves the section's own contribution (its group-local counts)
unchanged. -/
theorem aggregate_additivity (store : Store) (secs : List SectionModel)
    (i : Nat) (h : i < secs.length)
    (hinc : (secs.get ⟨i, h⟩).excluded = false) :
    aggregateCounts store secs =
      sumAgg ((secs.filter fun s => !s.excluded).map (contribAgg store)) ∧
    addAgg (aggregateCounts store (setSectionExcluded secs i true))
        (contribAgg store (secs.get ⟨i, h⟩)) = aggregateCounts store secs ∧
    aggregateCounts store
        (setSectionExcluded (setSectionExcluded secs i true) i false) =
      aggregateCounts store secs ∧
    (∀ b, contribAgg store { secs.get ⟨i, h⟩ with excluded := b } =
      contribAgg store (secs.get ⟨i, h⟩)) := by
  refine ⟨aggregate_filter_map store secs,
    exclude_removes_contribution store secs i h hinc, ?_, fun b => rfl⟩
  rw [toggle_restores secs i h hinc]

theorem aggregate_additivity_witness :
    aggregateCounts []
        [⟨[⟨some ⟨true, false, true⟩, some "/problemset/task/1"⟩], false,
           none, none⟩,
         ⟨[⟨some ⟨false, true, false⟩, some "/problemset/task/2"⟩], false,
           none, none⟩] =
      ⟨2, 1, 1, 0, 1, 1, 0⟩ ∧
    addAgg (aggregateCounts []
        (setSectionExcluded
          [⟨[⟨some ⟨true, false, true⟩, some "/problemset/task/1"⟩], false,
             none, none⟩,
           ⟨[⟨some ⟨false, true, false⟩, some "/problemset/task/2"⟩], false,
             none, none⟩] 0 true))
        (contribAgg []
          ⟨[⟨some ⟨true, false, true⟩, some "/problemset/task/1"⟩], false,
            none, none⟩) =
      ⟨2, 1, 1, 0, 1, 1, 0⟩ := by
  have h := aggregate_additivity []
    [⟨[⟨some ⟨true, false, true⟩, some "/problemset/task/1"⟩], false,
       none, none⟩,
     ⟨[⟨some ⟨false, true, false⟩, some "/problemset/task/2"⟩], false,
       none, none⟩] 0 (by decide) (by decide)
  exact ⟨by decide, h.2.1.trans (by decide)⟩

theorem runQueueAux_le (c : Nat) (q : List Nat) :
    ∀ running started, running ≤ c →
      (runQueueAux c running q started).1 ≤ c := by
  induction q with
  | nil => intro running started h; simpa [runQueueAux] using h
  | cons t rest ih =>
      intro running started h
      simp only [runQueueAux]
      by_cases hlt : running < c
      · simpa [hlt] using ih (running + 1) (started ++ [t]) hlt
      · simpa [hlt] using h

theorem runQueueAux_log (c : Nat) (q : List Nat) :
    ∀ running started,
      (runQueueAux c running q started).2.2 ++
          (runQueueAux c running q started).2.1 =
        started ++ q := by
  induction q with
  | nil => intro running started; simp [runQueueAux]
  | cons t rest ih =>
      intro running started
      simp only [runQueueAux]
      by_cases hlt : running < c
      · simpa [hlt, List.append_assoc] using
          ih (running + 1) (started ++ [t])
      · simp [hlt]

theorem runQueueAux_saturated (c running : Nat) (q started : List Nat)
    (h : ¬running < c) :
    runQueueAux c running q started = (running, q, started) := by
  cases q <;> simp [runQueueAux, h]

theorem runQueue_qinv (c : Nat) (s : QState) (h : QInv c s) :
    QInv c (runQueue s) := by
  obtain ⟨h1, h2, h3⟩ := h
  refine ⟨h1, ?_, ?_⟩
  · simpa [runQueue, h1] using runQueueAux_le c s.q s.running s.started
      (by simpa [h1] using h2)
  · simpa [runQueue, h1, runQueueAux_log c s.q s.running s.started] using h3

theorem qStep_qinv (c : Nat) (s : QState) (e : QEvent) (h : QInv c s) :
    QInv c (qStep s e) := by
  obtain ⟨h1, h2, h3⟩ := h
  cases e with
  | push id =>
      refine runQueue_qinv c _ ⟨h1, h2, ?_⟩
      simp [← List.append_assoc, h3]
  | settle ok =>
      exact runQueue_qinv c _ ⟨h1, Nat.le_trans (Nat.sub_le _ _) h2, h3⟩

theorem execTrace_qinv (c : Nat) (evs : List QEvent) :
    QInv c (execTrace c evs) := by
  suffices hgen : ∀ s, QInv c s → QInv c (evs.foldl qStep s) from
    hgen (initQ c) ⟨rfl, Nat.zero_le c, rfl⟩
  induction evs with
  | nil => intro s h; simpa using h
  | cons e rest ih =>
      intro s h
      exact ih (qStep s e) (qStep_qinv c s e h)

/-- C9: for every sequence of pushes and settlements on one scheduler
instance with limit `c`, the in-flight count never exceeds `c`; the start
log followed by the backlog equals the push log (tasks start in FIFO push
order); a rejected task settles exactly like a fulfilled one; and after
any settlement at a saturated queue, the waiting head task is started. -/
theorem task_queue_props (c : Nat) (evs : List QEvent) :
    (execTrace c evs).running ≤ c ∧
    (execTrace c evs).started ++ (execTrace c evs).q =
      (execTrace c evs).pushed ∧
    (∀ b, qStep (execTrace c evs) (QEvent.settle b) =
      qStep (execTrace c evs) (QEvent.settle true)) ∧
    (∀ b t rest, (execTrace c evs).q = t :: rest →
      (execTrace c evs).running = c → 0 < c →
      (qStep (execTrace c evs) (QEvent.settle b)).started =
        (execTrace c evs).started ++ [t]) := by
  obtain ⟨h1, h2, h3⟩ := execTrace_qinv c evs
  refine ⟨h2, h3, fun b => rfl, fun b t rest hq hr hc => ?_⟩
  simp only [qStep, runQueue, h1, hq, hr, runQueueAux]
  have hlt : c - 1 < c := Nat.sub_lt hc Nat.one_pos
  have hsucc : c - 1 + 1 = c := Nat.succ_pred_eq_of_pos hc
  rw [if_pos hlt, hsucc,
    runQueueAux_saturated c c rest _ (Nat.lt_irrefl c)]

theorem task_queue_props_witness :
    (execTrace 1 [QEvent.push 5, QEvent.push 6]).q = 6 :: [] ∧
    (execTrace 1 [QEvent.push 5, QEvent.push 6]).running = 1 ∧
    (qStep (execTrace 1 [QEvent.push 5, QEvent.push 6])
      (QEvent.settle false)).started = [5, 6] := by
  refine ⟨by decide, by decide, ?_⟩
  have h := (task_queue_props 1 [QEvent.push 5, QEvent.push 6]).2.2.2
    false 6 [] (by decide) (by decide) (by decide)
  exact h.trans (by decide)

end CsesFilter
